import Mathlib

/-!
Verification of the Translate-It segmented translation pipeline.

The definitions below are shallow embeddings of the JavaScript source:

* `BaseAIProvider` (providers base class): `calculateTextComplexity`,
  `getTotalComplexity`, `createSmartBatches`, `createFixedBatches`,
  `createCharacterBasedBatches`, `parseBatchResult` (object-array branch),
  and the `_streamingBatchTranslate` dispatch loop.
* `TranslationOrchestrator.processSelectedElement`: the translation payload
  construction that replaces `[[EMPTY_LINE]]` placeholders.
* `TranslationUIManager`: the streaming minimum-content gate of
  `_processStreamTranslationData` and the replacement decision of
  `applyTranslationsToNodes`.

JavaScript `Number` arithmetic on these paths only ever multiplies small
integer string lengths and counts by the constants 0.1, 0.5, 1.1, 1.2, 1.5;
all comparisons are modelled exactly by cross-multiplied natural-number
comparisons (e.g. `a > b * 1.1` becomes `10 * a > 11 * b`), which agrees
with IEEE double evaluation for all lengths a JS string can have.
-/

/-- The character class matched by the JavaScript regexp `\s` and removed by
`String.prototype.trim`: ASCII whitespace, NBSP, and the Unicode space
separators, line separators and BOM. -/
def isJsWhitespace (c : Char) : Bool :=
  c == ' ' || c == '\t' || c == '\n' || c == '\r' ||
  c == '\x0b' || c == '\x0c' ||
  c.toNat == 0xa0 ||
  c.toNat == 0x1680 ||
  (0x2000 ≤ c.toNat && c.toNat ≤ 0x200a) ||
  c.toNat == 0x2028 || c.toNat == 0x2029 ||
  c.toNat == 0x202f || c.toNat == 0x205f ||
  c.toNat == 0x3000 || c.toNat == 0xfeff

/-- Counts the maximal runs of characters satisfying `p`; `inRun` records
whether the previous character satisfied `p`. -/
def countRunsGo (p : Char → Bool) (inRun : Bool) : List Char → Nat
  | [] => 0
  | c :: cs =>
    if p c then (if inRun then 0 else 1) + countRunsGo p true cs
    else countRunsGo p false cs

/-- Number of maximal runs of characters satisfying `p` in a character list.
`text.match(/[.!?]+/g)` returns one match per maximal run, so
`(text.match(/[.!?]+/g) || []).length = countRuns sentenceChar text`. -/
def countRuns (p : Char → Bool) (cs : List Char) : Nat :=
  countRunsGo p false cs

/-- JavaScript `String.prototype.trim`: strip `isJsWhitespace` characters
from both ends. -/
def jsTrim (s : String) : String :=
  String.mk (((s.data.dropWhile isJsWhitespace).reverse.dropWhile isJsWhitespace).reverse)

/-- JavaScript `s.split(/\s+/).length`.  A split by a regexp produces one
piece per separator match plus one, including empty pieces at either end, so
the length is the number of maximal whitespace runs plus one (and `1` for the
empty string, since the regexp does not match there). -/
def wordCountJs (s : String) : Nat :=
  countRuns isJsWhitespace s.data + 1

/-- JavaScript `new Set(s.toLowerCase()).size`: the number of distinct
characters of the lowercased string (ASCII case mapping). -/
def uniqueCharCount (s : String) : Nat :=
  (s.data.map Char.toLower).dedup.length

/-- Characters counted as sentence terminators by `_calculateTextComplexity`. -/
def isSentenceChar (c : Char) : Bool :=
  c == '.' || c == '!' || c == '?'

/-- `BaseAIProvider._calculateTextComplexity`.  `none` models a `null`,
`undefined` or non-string argument (the `typeof text !== 'string'` guard);
`some ""` is falsy in JS and also returns 0.  The JS value
`Math.round(min(len*0.5,100) + sentences*2 + min(words*0.5,20))` is a
half-integer rounded half-up, computed here as `(2*value + 1) / 2` over
naturals with every term doubled. -/
def calculateTextComplexity (text : Option String) : Nat :=
  match text with
  | none => 0
  | some t =>
    if t.isEmpty then 0
    else
      let length := t.length
      let sentences := countRuns isSentenceChar t.data
      let words := wordCountJs (jsTrim t)
      (Nat.min length 200 + 4 * sentences + Nat.min words 40 + 1) / 2

/-- Complexity of a plain string segment (the batching code always passes a
string). -/
def textComplexity (t : String) : Nat :=
  calculateTextComplexity (some t)

/-- The number of whitespace-separated words of a string: the number of
maximal non-whitespace runs.  This is the reading of "wordCount" in the
specification's complexity formula. -/
def specWordCount (s : String) : Nat :=
  countRuns (fun c => !isJsWhitespace c) s.data

/-- The complexity formula exactly as the specification words it:
`round(min(len*0.5,100) + sentenceCount*2 + min(wordCount*0.5,20))` with
`wordCount` the number of whitespace-separated words of the trimmed string,
and 0 for a null input. -/
def specComplexityFormula (text : Option String) : Nat :=
  match text with
  | none => 0
  | some t =>
    (Nat.min t.length 200 + 4 * countRuns isSentenceChar t.data
      + Nat.min (specWordCount (jsTrim t)) 40 + 1) / 2

/-- The complexity formula as amended: identical to the specification's
formula except that `wordCount` is counted as 1 when the trimmed string is
empty (JS `"".split(/\s+/).length` is 1), and a falsy (empty) string input
yields 0. -/
def amendedComplexityFormula (text : Option String) : Nat :=
  match text with
  | none => 0
  | some t =>
    if t.isEmpty then 0
    else
      (Nat.min t.length 200 + 4 * countRuns isSentenceChar t.data
        + Nat.min (Nat.max 1 (specWordCount (jsTrim t))) 40 + 1) / 2

/-- `BaseAIProvider._getTotalComplexity`: reduce with `+` over per-text
complexities. -/
def getTotalComplexity (texts : List String) : Nat :=
  texts.foldl (fun sum t => sum + textComplexity t) 0

/-- The `single` batching strategy (`case 'single': return [texts]`). -/
def createSingleBatch (texts : List String) : List (List String) :=
  [texts]

/-- The multi-batch loop of `_createSmartBatches`: `cur` and `curC` are the
mutable `currentBatch` and `currentComplexity`; a batch is closed before
appending a text when it already holds `optimalSize` items or the text would
push its complexity over `maxComplexity`. -/
def smartGo (optimalSize maxComplexity : Nat) (cur : List String) (curC : Nat) :
    List String → List (List String)
  | [] => if cur.isEmpty then [] else [cur]
  | t :: ts =>
    let tc := textComplexity t
    if optimalSize ≤ cur.length || (maxComplexity < curC + tc && 0 < cur.length) then
      cur :: smartGo optimalSize maxComplexity [t] tc ts
    else
      smartGo optimalSize maxComplexity (cur ++ [t]) (curC + tc) ts

/-- `BaseAIProvider._createSmartBatches`: early exit to a single batch when
`totalSegments <= min(20, optimalSize) || totalComplexity < min(300, maxComplexity)`,
otherwise the complexity-bounded loop. -/
def createSmartBatches (texts : List String) (optimalSize maxComplexity : Nat) :
    List (List String) :=
  if texts.length ≤ Nat.min 20 optimalSize
      || getTotalComplexity texts < Nat.min 300 maxComplexity then
    [texts]
  else
    smartGo optimalSize maxComplexity [] 0 texts

/-- `BaseAIProvider._createFixedBatches`: slices of `batchSize` consecutive
texts.  The JS loop `for (i = 0; i < n; i += batchSize)` does not terminate
for `batchSize = 0`; that case is modelled as `[]` and excluded by the
`0 < batchSize` hypothesis of every theorem about this function. -/
def createFixedBatches (texts : List String) (batchSize : Nat) : List (List String) :=
  if texts.isEmpty then []
  else if batchSize = 0 then []
  else texts.take batchSize :: createFixedBatches (texts.drop batchSize) batchSize
termination_by texts.length
decreasing_by
  simp only [List.length_drop]
  rename_i hne hz
  have h1 : texts.length ≠ 0 := by
    simpa [List.isEmpty_iff_length_eq_zero] using hne
  omega

/-- `Math.ceil(a / b)` for naturals (`b > 0` on every path the code takes). -/
def ceilDiv (a b : Nat) : Nat :=
  (a + b - 1) / b

/-- The greedy loop of `_createCharacterBasedBatches`: close the current
batch when the next text would overflow `target`; a text longer than
`target` is emitted as a batch of its own. -/
def charGo (target : Nat) (cur : List String) (curChars : Nat) :
    List String → List (List String)
  | [] => if cur.isEmpty then [] else [cur]
  | t :: ts =>
    let tl := t.length
    if target < curChars + tl && 0 < cur.length then
      if target < tl then
        cur :: [t] :: charGo target [] 0 ts
      else
        cur :: charGo target [t] tl ts
    else
      if target < tl then
        (if cur.isEmpty then [] else [cur]) ++ [t] :: charGo target [] 0 ts
      else
        charGo target (cur ++ [t]) (curChars + tl) ts

/-- Total character count of a list of texts
(`texts.reduce((sum, t) => sum + t.length, 0)`). -/
def totalCharsOf (texts : List String) : Nat :=
  texts.foldl (fun sum t => sum + t.length) 0

/-- `BaseAIProvider._createCharacterBasedBatches`: single batch when the
total character count fits the budget, otherwise the greedy loop against
`targetBatchChars` (the balanced size capped by the budget when
`balancedBatching` is set, the raw budget otherwise). -/
def createCharacterBasedBatches (texts : List String) (maxCharsPerBatch : Nat)
    (balancedBatching : Bool) : List (List String) :=
  let totalChars := totalCharsOf texts
  if totalChars ≤ maxCharsPerBatch then
    [texts]
  else
    let idealBatchCount := ceilDiv totalChars maxCharsPerBatch
    let balancedBatchSize := ceilDiv totalChars (Nat.min (idealBatchCount + 1) texts.length)
    let targetBatchChars :=
      if balancedBatching then Nat.min balancedBatchSize maxCharsPerBatch
      else maxCharsPerBatch
    charGo targetBatchChars [] 0 texts

/-- The replacement decision of `TranslationUIManager.applyTranslationsToNodes`
(the `shouldReplace` computation).  `currentTranslation` is the trimmed text
already applied to the holder, `finalTrimmed` the trimmed incoming result,
`isFinalResult` the `options.isFinalResult` flag and `matchIsRescue` the
`matchStrategy.includes('rescue')` test.  The JS float thresholds
`* 1.5`, `* 1.10`, `* 1.2`, `* 1.10` are the exact cross-multiplied
comparisons below. -/
def shouldReplaceTranslation (isFinalResult matchIsRescue : Bool)
    (currentTranslation finalTrimmed : String) : Bool :=
  let afterFinal := isFinalResult && currentTranslation != finalTrimmed
  if !afterFinal && matchIsRescue && 0 < currentTranslation.length then
    afterFinal || decide (3 * currentTranslation.length < 2 * finalTrimmed.length)
  else if !isFinalResult && currentTranslation != finalTrimmed then
    afterFinal
      || decide (11 * currentTranslation.length < 10 * finalTrimmed.length)
      || decide (6 * wordCountJs currentTranslation < 5 * wordCountJs finalTrimmed)
      || decide (11 * uniqueCharCount currentTranslation < 10 * uniqueCharCount finalTrimmed)
  else
    afterFinal

/-- The replacement policy as the specification would state it: replace when
the length is at least 110% of the current one, or the word count at least
120%, or the unique-character count at least 110%. -/
def specStreamingReplace (currentTranslation finalTrimmed : String) : Bool :=
  decide (11 * currentTranslation.length ≤ 10 * finalTrimmed.length)
    || decide (6 * wordCountJs currentTranslation ≤ 5 * wordCountJs finalTrimmed)
    || decide (11 * uniqueCharCount currentTranslation ≤ 10 * uniqueCharCount finalTrimmed)

/-- The replacement policy as amended: a final result replaces exactly when
it differs from the current text; a non-final result matched through a
rescue strategy onto a nonempty current translation replaces exactly when
its length is more than 150% of the current one; any other non-final result
replaces exactly when it differs from the current text and its length is
more than 110% of the current one, or its word count more than 120%, or its
unique-character count more than 110%. -/
def amendedReplacePolicy (isFinalResult matchIsRescue : Bool)
    (currentTranslation finalTrimmed : String) : Bool :=
  if isFinalResult then
    currentTranslation != finalTrimmed
  else if matchIsRescue && 0 < currentTranslation.length then
    decide (3 * currentTranslation.length < 2 * finalTrimmed.length)
  else
    (currentTranslation != finalTrimmed)
      && (decide (11 * currentTranslation.length < 10 * finalTrimmed.length)
        || decide (6 * wordCountJs currentTranslation < 5 * wordCountJs finalTrimmed)
        || decide (11 * uniqueCharCount currentTranslation < 10 * uniqueCharCount finalTrimmed))

/-- A stream update as observed by the content script: the batch it refers
to and its success flag (`TRANSLATION_STREAM_UPDATE` payload of
`_streamBatchResults` and `_streamErrorResults`). -/
structure StreamUpdate where
  batchIndex : Nat
  success : Bool
deriving DecidableEq, Repr

/-- How a `_streamingBatchTranslate` run ends: normally, by the rethrown
hard failure of a batch, or by the cancellation thrown before a dispatch. -/
inductive JobOutcome where
  | completed
  | errored (batchIndex : Nat)
  | cancelled (batchIndex : Nat)
deriving DecidableEq, Repr

/-- Observable trace of a `_streamingBatchTranslate` run: which batch
indices were dispatched to the backend, which stream updates were emitted,
and how the run ended. -/
structure StreamRun where
  dispatched : List Nat
  updates : List StreamUpdate
  outcome : JobOutcome
deriving DecidableEq, Repr

/-- The `for (batchIndex ...)` loop of `_streamingBatchTranslate` starting at
batch `i`.  `batchResult i = some rs` abstracts a batch dispatch whose
combined request (or per-segment fallback) succeeded with results `rs`;
`none` abstracts a hard failure whose fallback also failed, which emits a
`success=false` update and rethrows.  `cancelObserved i` is the cancellation
flag consulted before dispatching batch `i`; when set, the loop throws
`USER_CANCELLED` before any dispatch or update for that batch. -/
def streamLoop (batchResult : Nat → Option (List String)) (cancelObserved : Nat → Bool) :
    Nat → List (List String) → StreamRun
  | _, [] => ⟨[], [], .completed⟩
  | i, _b :: bs =>
    if cancelObserved i then
      ⟨[], [], .cancelled i⟩
    else
      match batchResult i with
      | some _rs =>
        let rest := streamLoop batchResult cancelObserved (i + 1) bs
        ⟨i :: rest.dispatched, ⟨i, true⟩ :: rest.updates, rest.outcome⟩
      | none =>
        ⟨[i], [⟨i, false⟩], .errored i⟩

/-- `BaseAIProvider._streamingBatchTranslate` over an already-planned batch
list: the loop starting at batch 0. -/
def streamingBatchTranslate (batchResult : Nat → Option (List String))
    (cancelObserved : Nat → Bool) (batches : List (List String)) : StreamRun :=
  streamLoop batchResult cancelObserved 0 batches

/-- Origin-map entry for one expanded segment. -/
structure SegMapping where
  originalIndex : Nat
  isEmptyLine : Bool
deriving DecidableEq, Repr

/-- Split a character list at newline characters (JS `raw.split('\n')`). -/
def splitLinesGo : List Char → List (List Char)
  | [] => [[]]
  | c :: rest =>
    match splitLinesGo rest with
    | [] => [[]]
    | l :: ls => if c = '\n' then [] :: l :: ls else (c :: l) :: ls

/-- JS `raw.split('\n')` as a list of strings. -/
def splitLines (s : String) : List String :=
  (splitLinesGo s.data).map String.mk

/-- Modelled from the spec: `expandTextsForTranslation`
(`src/features/element-selection/utils/textExtraction.js`) is not under
`src/`.  Spec 4.1: a unit without internal line breaks maps to exactly one
segment; otherwise each line becomes a segment, and each internal blank line
becomes its own segment marked `isEmptyLine = true` carrying the
`[[EMPTY_LINE]]` placeholder, with `originalIndex` pointing back at the
unit. -/
def expandTextsForTranslation (textsToTranslate : List String) :
    List (String × SegMapping) :=
  (textsToTranslate.enum).flatMap fun p =>
    let i := p.1
    let raw := p.2
    if raw.data.contains '\n' then
      (splitLines raw).map fun line =>
        if (jsTrim line).isEmpty then ("[[EMPTY_LINE]]", ⟨i, true⟩)
        else (line, ⟨i, false⟩)
    else
      [(raw, ⟨i, false⟩)]

/-- The expanded segment texts of a request. -/
def expandedTextsOf (textsToTranslate : List String) : List String :=
  (expandTextsForTranslation textsToTranslate).map Prod.fst

/-- The origin map of a request. -/
def originMappingOf (textsToTranslate : List String) : List SegMapping :=
  (expandTextsForTranslation textsToTranslate).map Prod.snd

/-- `TranslationOrchestrator.processSelectedElement` lines 100-107: the
`text` fields of the JSON payload sent for translation are the expanded
texts with each `[[EMPTY_LINE]]` placeholder replaced by the empty string
(`filteredExpandedTexts`), one `{ text }` object per segment. -/
def jsonPayloadTexts (textsToTranslate : List String) : List String :=
  (expandedTextsOf textsToTranslate).map fun t =>
    if t = "[[EMPTY_LINE]]" then "" else t

/-- One structured item of a parsed batch response (`{ id, text }`). -/
structure BatchObjItem where
  id : Int
  text : String
deriving DecidableEq, Repr

/-- Comparator order used by `_parseBatchResult`:
`sort((a, b) => a.id - b.id)`. -/
def idLe (a b : BatchObjItem) : Prop :=
  a.id ≤ b.id

instance : DecidableRel idLe := fun a b => inferInstanceAs (Decidable (a.id ≤ b.id))

instance : IsTotal BatchObjItem idLe := ⟨fun a b => Int.le_total a.id b.id⟩

instance : IsTrans BatchObjItem idLe := ⟨fun _ _ _ h1 h2 => Int.le_trans h1 h2⟩

/-- JS `Array.prototype.sort` with comparator `a.id - b.id` on id-tagged
items: a stable sort by id, i.e. insertion sort. -/
def sortById (items : List BatchObjItem) : List BatchObjItem :=
  items.insertionSort idLe

/-- The `while (translatedTexts.length < expectedCount)` padding loop of
`_parseBatchResult`, phrased with the explicit iteration count
`expectedCount - ts.length` (each iteration appends one element): position
`k` is filled with `originalBatch[k] || ''`. -/
def padGo (originalBatch : List String) : List String → Nat → List String
  | ts, 0 => ts
  | ts, k + 1 => padGo originalBatch (ts ++ [originalBatch.getD ts.length ""]) k

/-- Pad `ts` with original texts up to `expectedCount` entries. -/
def padWithOriginals (ts : List String) (expectedCount : Nat)
    (originalBatch : List String) : List String :=
  padGo originalBatch ts (expectedCount - ts.length)

/-- The structured-array branch of `BaseAIProvider._parseBatchResult`, for a
response that parsed to an array of `{ id, text }` objects:
equal count sorts by id; more items than expected takes the first
`expectedCount` and sorts them; fewer items sorts and pads the tail with
original texts.  `none` models falling through to the
`throw new Error('Invalid batch result format ...')` (an empty array fails
the `typeof parsed[0] === 'object'` test). -/
def parseBatchResult (parsed : List BatchObjItem) (expectedCount : Nat)
    (originalBatch : List String) : Option (List String) :=
  if parsed.isEmpty then none
  else if parsed.length = expectedCount then
    some ((sortById parsed).map BatchObjItem.text)
  else if expectedCount < parsed.length then
    some ((sortById (parsed.take expectedCount)).map BatchObjItem.text)
  else
    some (padWithOriginals ((sortById parsed).map BatchObjItem.text) expectedCount originalBatch)

/-- The per-segment gate of
`TranslationUIManager._processStreamTranslationData`: a streamed translation
is entered into `newlyAppliedTranslations` (and hence applied to destination
nodes) only when its original text is found among the expanded texts, its
origin-map entry exists and is not an empty line, the original unit text is
truthy, and the minimum-content check
`translatedText.trim().length > originalTextKey.trim().length * 0.1`
passes (modelled exactly as `10 * lhs > rhs`). -/
def streamSegmentApplied (expandedTexts : List String) (originMapping : List SegMapping)
    (textsToTranslate : List String) (originalText translatedText : String) : Bool :=
  match expandedTexts.findIdx? (fun text => text == originalText) with
  | none => false
  | some expandedIndex =>
    match originMapping[expandedIndex]? with
    | none => false
    | some mappingInfo =>
      if mappingInfo.isEmptyLine then false
      else
        match textsToTranslate[mappingInfo.originalIndex]? with
        | none => false
        | some originalTextKey =>
          if originalTextKey = "" then false
          else decide ((jsTrim originalTextKey).length < 10 * (jsTrim translatedText).length)

theorem smartGo_flatten_eq (optimalSize maxComplexity : Nat) :
    ∀ (ts cur : List String) (curC : Nat),
      (smartGo optimalSize maxComplexity cur curC ts).flatten = cur ++ ts := by
  intro ts
  induction ts with
  | nil =>
    intro cur curC
    cases cur <;> simp [smartGo]
  | cons t ts ih =>
    intro cur curC
    simp only [smartGo]
    split
    · simp [ih]
    · simp [ih, List.append_assoc]

theorem charGo_flatten_eq (target : Nat) :
    ∀ (ts cur : List String) (curChars : Nat),
      (charGo target cur curChars ts).flatten = cur ++ ts := by
  intro ts
  induction ts with
  | nil =>
    intro cur curChars
    cases cur <;> simp [charGo]
  | cons t ts ih =>
    intro cur curChars
    simp only [charGo]
    split
    · split
      · simp [ih]
      · simp [ih, List.append_assoc]
    · split
      · cases cur <;> simp [ih, List.append_assoc]
      · simp [ih, List.append_assoc]

theorem createFixedBatches_flatten_eq (batchSize : Nat) (hsize : 0 < batchSize) :
    ∀ texts : List String, (createFixedBatches texts batchSize).flatten = texts := by
  have key : ∀ (n : Nat) (texts : List String), texts.length ≤ n →
      (createFixedBatches texts batchSize).flatten = texts := by
    intro n
    induction n with
    | zero =>
      intro texts hlen
      have : texts = [] := by
        cases texts with
        | nil => rfl
        | cons a t => simp at hlen
      subst this
      rw [createFixedBatches]
      simp
    | succ n ih =>
      intro texts hlen
      rw [createFixedBatches]
      by_cases he : texts.isEmpty
      · have : texts = [] := by simpa [List.isEmpty_iff] using he
        subst this
        simp
      · rw [if_neg (by simp [he]), if_neg (by omega)]
        have hlt : (texts.drop batchSize).length ≤ n := by
          have h1 : texts.length ≠ 0 := by
            simpa [List.isEmpty_iff, List.length_eq_zero] using he
          simp only [List.length_drop]
          omega
        simp [ih _ hlt]
  intro texts
  exact key texts.length texts (Nat.le_refl _)

/-- C1: for every batching strategy (single, smart, fixed, character-budget)
and every input list of texts, the concatenation of the returned batches, in
batch order then intra-batch order, equals the input list exactly: no text is
lost, duplicated or reordered.  (`0 < batchSize` excludes the degenerate
fixed size on which the JS loop would not terminate.) -/
theorem c1_batch_concatenation_preserves_texts
    (texts : List String) (optimalSize maxComplexity batchSize maxCharsPerBatch : Nat)
    (balancedBatching : Bool) (hsize : 0 < batchSize) :
    (createSingleBatch texts).flatten = texts
    ∧ (createSmartBatches texts optimalSize maxComplexity).flatten = texts
    ∧ (createFixedBatches texts batchSize).flatten = texts
    ∧ (createCharacterBasedBatches texts maxCharsPerBatch balancedBatching).flatten = texts := by
  refine ⟨by simp [createSingleBatch], ?_, createFixedBatches_flatten_eq batchSize hsize texts, ?_⟩
  · unfold createSmartBatches
    split
    · simp
    · simpa using smartGo_flatten_eq optimalSize maxComplexity texts [] 0
  · by_cases h : totalCharsOf texts ≤ maxCharsPerBatch
    · simp [createCharacterBasedBatches, h]
    · simp [createCharacterBasedBatches, h, charGo_flatten_eq]

/-- Witness for C1 at a concrete input and concrete strategy parameters. -/
theorem c1_witness :
    (createSingleBatch ["a", "bb"]).flatten = ["a", "bb"]
    ∧ (createSmartBatches ["a", "bb"] 15 300).flatten = ["a", "bb"]
    ∧ (createFixedBatches ["a", "bb"] 1).flatten = ["a", "bb"]
    ∧ (createCharacterBasedBatches ["a", "bb"] 100 false).flatten = ["a", "bb"] :=
  c1_batch_concatenation_preserves_texts ["a", "bb"] 15 300 1 100 false (by decide)

/-- C2 is false as stated: with `optimalSize = 15` (the `BaseAIProvider`
class default) and `maxComplexity = 300`, the list of 16 copies of a 40
character word has 16 ≤ 20 segments, yet smart batching returns 2 batches,
because the code's early exit requires
`count ≤ min(20, optimalSize) || complexity < min(300, maxComplexity)`
and here count 16 > 15 and total complexity 336 ≥ 300. -/
theorem c2_counterexample :
    (List.replicate 16 (String.mk (List.replicate 40 'a'))).length ≤ 20
    ∧ (createSmartBatches (List.replicate 16 (String.mk (List.replicate 40 'a'))) 15 300).length = 2 := by
  constructor
  · decide
  · decide

/-- C2 as amended: smart batching returns the single batch of all texts
whenever the segment count is at most `min 20 optimalSize` or the total
complexity is below `min 300 maxComplexity` (the code's actual early-exit
condition). -/
theorem c2_smart_single_batch_amended (texts : List String) (optimalSize maxComplexity : Nat)
    (h : texts.length ≤ Nat.min 20 optimalSize
      ∨ getTotalComplexity texts < Nat.min 300 maxComplexity) :
    createSmartBatches texts optimalSize maxComplexity = [texts] := by
  unfold createSmartBatches
  rcases h with h | h <;> simp [h]

/-- Witness for C2 as amended: 20 segments of complexity 1 each (total 20)
with the default parameters yield exactly one batch. -/
theorem c2_witness :
    createSmartBatches (List.replicate 20 "a") 15 300 = [List.replicate 20 "a"] :=
  c2_smart_single_batch_amended (List.replicate 20 "a") 15 300 (by decide)

/-- C7 is false as stated: 3 segments of 60 characters with a budget of 100
produce 3 batches, not 2 (two batches are impossible without one of them
holding two 60-character segments, i.e. 120 > 100 characters). -/
theorem c7_counterexample :
    ¬ (createCharacterBasedBatches
        (List.replicate 3 (String.mk (List.replicate 60 'a'))) 100 false).length = 2
    ∧ (createCharacterBasedBatches
        (List.replicate 3 (String.mk (List.replicate 60 'a'))) 100 false).length = 3 := by
  constructor
  · decide
  · decide

/-- C7 as amended: for 3 segments of length 60 and a budget of 100, the
planner returns exactly 3 batches, one segment each, and the total character
count of every returned batch is within the budget. -/
theorem c7_character_budget_amended :
    createCharacterBasedBatches
        (List.replicate 3 (String.mk (List.replicate 60 'a'))) 100 false
      = [[String.mk (List.replicate 60 'a')],
         [String.mk (List.replicate 60 'a')],
         [String.mk (List.replicate 60 'a')]]
    ∧ ∀ b ∈ createCharacterBasedBatches
        (List.replicate 3 (String.mk (List.replicate 60 'a'))) 100 false,
        totalCharsOf b ≤ 100 := by
  constructor
  · decide
  · decide

/-- C3 is false as stated at the 110% boundary: for a current streaming
translation of 10 characters and a new one of 11 (exactly 110% of the
length, one word, one unique character each), the claim's "at least 110%"
rule replaces, but the code requires strictly more than 110% and keeps the
existing result. -/
theorem c3_counterexample :
    specStreamingReplace "aaaaaaaaaa" "aaaaaaaaaaa" = true
    ∧ shouldReplaceTranslation false false "aaaaaaaaaa" "aaaaaaaaaaa" = false := by
  constructor
  · decide
  · decide

/-- C3 as amended: a final result replaces exactly when its text differs
from the applied one (so the holder always ends up with the final text); a
non-final result matched through a rescue strategy onto a nonempty current
translation replaces exactly when its length is more than 150% of the
current one; any other non-final result replaces exactly when it differs
and its length is strictly more than 110% of the current one, or its word
count strictly more than 120%, or its unique-character count strictly more
than 110%. -/
theorem c3_replacement_policy_amended (isFinalResult matchIsRescue : Bool)
    (currentTranslation finalTrimmed : String) :
    shouldReplaceTranslation isFinalResult matchIsRescue currentTranslation finalTrimmed
      = amendedReplacePolicy isFinalResult matchIsRescue currentTranslation finalTrimmed := by
  cases isFinalResult with
  | false =>
    cases matchIsRescue with
    | false =>
      simp only [shouldReplaceTranslation, amendedReplacePolicy]
      by_cases h : currentTranslation = finalTrimmed <;>
        simp [h]
    | true =>
      by_cases hl : 0 < currentTranslation.length
      · simp [shouldReplaceTranslation, amendedReplacePolicy, hl]
      · by_cases h : currentTranslation = finalTrimmed <;>
          simp [shouldReplaceTranslation, amendedReplacePolicy, hl, h]
  | true =>
    by_cases h : currentTranslation = finalTrimmed
    · have h32 : ¬ 3 * currentTranslation.length < 2 * finalTrimmed.length := by
        rw [h]; omega
      simp [shouldReplaceTranslation, amendedReplacePolicy, h, h32]
      intro _ _
      omega
    · simp [shouldReplaceTranslation, amendedReplacePolicy, h]

theorem streamLoop_error_run (batchResult : Nat → Option (List String))
    (cancelObserved : Nat → Bool) :
    ∀ (bs : List (List String)) (i k : Nat),
      k < bs.length →
      (∀ j, j < k → (batchResult (i + j)).isSome = true) →
      batchResult (i + k) = none →
      (∀ j, j ≤ k → cancelObserved (i + j) = false) →
      streamLoop batchResult cancelObserved i bs =
        ⟨(List.range (k + 1)).map (i + ·),
         ((List.range k).map fun j => ⟨i + j, true⟩) ++ [⟨i + k, false⟩],
         .errored (i + k)⟩ := by
  intro bs
  induction bs with
  | nil =>
    intro i k hk
    simp at hk
  | cons b bs ih =>
    intro i k hk hsucc hfail hcancel
    have hc0 : cancelObserved i = false := by
      have := hcancel 0 (Nat.zero_le k)
      simpa using this
    cases k with
    | zero =>
      have hf : batchResult i = none := by simpa using hfail
      simp [streamLoop, hc0, hf, List.range_succ]
    | succ k =>
      have hs0 : (batchResult i).isSome = true := by
        have := hsucc 0 (Nat.succ_pos k)
        simpa using this
      obtain ⟨rs, hrs⟩ := Option.isSome_iff_exists.mp hs0
      have ihx := ih (i + 1) k (by simpa using Nat.lt_of_succ_lt_succ hk)
        (fun j hj => by
          have := hsucc (j + 1) (by omega)
          have heq : i + (j + 1) = i + 1 + j := by omega
          rwa [heq] at this)
        (by
          have heq : i + (k + 1) = i + 1 + k := by omega
          rwa [heq] at hfail)
        (fun j hj => by
          have := hcancel (j + 1) (by omega)
          have heq : i + (j + 1) = i + 1 + j := by omega
          rwa [heq] at this)
      have hmap1 : (List.range (k + 1 + 1)).map (i + ·)
          = i :: (List.range (k + 1)).map (i + 1 + ·) := by
        rw [List.range_succ_eq_map]
        simp only [List.map_cons, List.map_map]
        refine congrArg₂ _ (by omega) ?_
        apply List.map_congr_left
        intro j _
        simp only [Function.comp_apply]
        omega
      have hmap2 : ((List.range (k + 1)).map fun j => StreamUpdate.mk (i + j) true)
          = StreamUpdate.mk i true :: ((List.range k).map fun j => StreamUpdate.mk (i + 1 + j) true) := by
        rw [List.range_succ_eq_map]
        simp only [List.map_cons, List.map_map]
        refine congrArg₂ _ (by simp) ?_
        apply List.map_congr_left
        intro j _
        simp only [Function.comp_apply, StreamUpdate.mk.injEq, and_true]
        omega
      have houtcome : i + 1 + k = i + (k + 1) := by omega
      simp only [streamLoop, hc0, Bool.false_eq_true, if_false, hrs, ihx]
      congr 1
      · rw [hmap1]
      · rw [hmap2, houtcome]
        simp
      · rw [houtcome]

theorem streamLoop_cancel_run (batchResult : Nat → Option (List String))
    (cancelObserved : Nat → Bool) :
    ∀ (bs : List (List String)) (i k : Nat),
      k < bs.length →
      (∀ j, j < k → (batchResult (i + j)).isSome = true) →
      (∀ j, j < k → cancelObserved (i + j) = false) →
      cancelObserved (i + k) = true →
      streamLoop batchResult cancelObserved i bs =
        ⟨(List.range k).map (i + ·),
         (List.range k).map fun j => ⟨i + j, true⟩,
         .cancelled (i + k)⟩ := by
  intro bs
  induction bs with
  | nil =>
    intro i k hk
    simp at hk
  | cons b bs ih =>
    intro i k hk hsucc hnocancel hcancel
    cases k with
    | zero =>
      have hc : cancelObserved i = true := by simpa using hcancel
      simp [streamLoop, hc]
    | succ k =>
      have hc0 : cancelObserved i = false := by
        have := hnocancel 0 (Nat.succ_pos k)
        simpa using this
      have hs0 : (batchResult i).isSome = true := by
        have := hsucc 0 (Nat.succ_pos k)
        simpa using this
      obtain ⟨rs, hrs⟩ := Option.isSome_iff_exists.mp hs0
      have ihx := ih (i + 1) k (by simpa using Nat.lt_of_succ_lt_succ hk)
        (fun j hj => by
          have := hsucc (j + 1) (by omega)
          have heq : i + (j + 1) = i + 1 + j := by omega
          rwa [heq] at this)
        (fun j hj => by
          have := hnocancel (j + 1) (by omega)
          have heq : i + (j + 1) = i + 1 + j := by omega
          rwa [heq] at this)
        (by
          have heq : i + (k + 1) = i + 1 + k := by omega
          rwa [heq] at hcancel)
      have hmap1 : (List.range (k + 1)).map (i + ·)
          = i :: (List.range k).map (i + 1 + ·) := by
        rw [List.range_succ_eq_map]
        simp only [List.map_cons, List.map_map]
        refine congrArg₂ _ (by omega) ?_
        apply List.map_congr_left
        intro j _
        simp only [Function.comp_apply]
        omega
      have hmap2 : ((List.range (k + 1)).map fun j => StreamUpdate.mk (i + j) true)
          = StreamUpdate.mk i true :: ((List.range k).map fun j => StreamUpdate.mk (i + 1 + j) true) := by
        rw [List.range_succ_eq_map]
        simp only [List.map_cons, List.map_map]
        refine congrArg₂ _ (by simp) ?_
        apply List.map_congr_left
        intro j _
        simp only [Function.comp_apply, StreamUpdate.mk.injEq, and_true]
        omega
      have houtcome : i + 1 + k = i + (k + 1) := by omega
      simp only [streamLoop, hc0, Bool.false_eq_true, if_false, hrs, ihx]
      congr 1
      · rw [hmap1]
      · rw [hmap2]
      · rw [houtcome]

/-- C4: if every batch before `k` succeeds and batch `k` fails irrecoverably
(its combined request and its per-segment fallback both fail), the streaming
loop emits the success updates for batches `0..k-1` followed by a single
`success=false` update for batch `k`, dispatches no batch after `k`, emits
no update referencing a batch after `k`, and ends in the error outcome
(the rethrown failure that moves the job to `error`) regardless of what any
later batch would have returned. -/
theorem c4_fail_fast (batchResult : Nat → Option (List String))
    (cancelObserved : Nat → Bool) (batches : List (List String)) (k : Nat)
    (hk : k < batches.length)
    (hsucc : ∀ j, j < k → (batchResult j).isSome = true)
    (hfail : batchResult k = none)
    (hcancel : ∀ j, j ≤ k → cancelObserved j = false) :
    streamingBatchTranslate batchResult cancelObserved batches =
      ⟨List.range (k + 1),
       ((List.range k).map fun j => ⟨j, true⟩) ++ [⟨k, false⟩],
       .errored k⟩
    ∧ (∀ u ∈ (streamingBatchTranslate batchResult cancelObserved batches).updates,
        u.batchIndex ≤ k)
    ∧ (∀ j ∈ (streamingBatchTranslate batchResult cancelObserved batches).dispatched,
        j ≤ k) := by
  have hrun := streamLoop_error_run batchResult cancelObserved batches 0 k hk
    (by simpa using hsucc) (by simpa using hfail) (by simpa using hcancel)
  have hrun0 : streamingBatchTranslate batchResult cancelObserved batches =
      ⟨List.range (k + 1),
       ((List.range k).map fun j => ⟨j, true⟩) ++ [⟨k, false⟩],
       .errored k⟩ := by
    rw [streamingBatchTranslate, hrun]
    congr 1
    · simp
    · simp
    · simp
  refine ⟨hrun0, ?_, ?_⟩
  · intro u hu
    rw [hrun0] at hu
    simp only [List.mem_append, List.mem_map, List.mem_range, List.mem_singleton] at hu
    rcases hu with ⟨j, hj, rfl⟩ | rfl
    · exact Nat.le_of_lt hj
    · exact Nat.le_refl k
  · intro j hj
    rw [hrun0] at hj
    simp only [List.mem_range] at hj
    omega

/-- Witness for C4: three batches, batch 1 hard-fails after batch 0
succeeded; only batches 0 and 1 are dispatched, the updates are exactly a
success for batch 0 and a failure for batch 1, and the run ends errored. -/
theorem c4_witness :
    streamingBatchTranslate (fun j => if j = 1 then none else some ["t"]) (fun _ => false)
        [["a"], ["b"], ["c"]] =
      ⟨List.range 2, ((List.range 1).map fun j => ⟨j, true⟩) ++ [⟨1, false⟩], .errored 1⟩ :=
  (c4_fail_fast (fun j => if j = 1 then none else some ["t"]) (fun _ => false)
    [["a"], ["b"], ["c"]] 1 (by decide) (by decide) (by decide) (by decide)).1

/-- C5: if cancellation is observed at the check before dispatching batch
`k` (and never earlier, every earlier batch succeeding), then batch `k` and
all later batches are never dispatched, the emitted updates are exactly the
success updates of batches `0..k-1` (so none references `k` or later), and
the run ends in the cancelled outcome, not the error outcome. -/
theorem c5_cancellation_cutoff (batchResult : Nat → Option (List String))
    (cancelObserved : Nat → Bool) (batches : List (List String)) (k : Nat)
    (hk : k < batches.length)
    (hsucc : ∀ j, j < k → (batchResult j).isSome = true)
    (hnocancel : ∀ j, j < k → cancelObserved j = false)
    (hcancel : cancelObserved k = true) :
    streamingBatchTranslate batchResult cancelObserved batches =
      ⟨List.range k, (List.range k).map fun j => ⟨j, true⟩, .cancelled k⟩
    ∧ (∀ u ∈ (streamingBatchTranslate batchResult cancelObserved batches).updates,
        u.batchIndex < k)
    ∧ (∀ j ∈ (streamingBatchTranslate batchResult cancelObserved batches).dispatched,
        j < k)
    ∧ (∀ m, (streamingBatchTranslate batchResult cancelObserved batches).outcome
        ≠ .errored m) := by
  have hrun := streamLoop_cancel_run batchResult cancelObserved batches 0 k hk
    (by simpa using hsucc) (by simpa using hnocancel) (by simpa using hcancel)
  have hrun0 : streamingBatchTranslate batchResult cancelObserved batches =
      ⟨List.range k, (List.range k).map fun j => ⟨j, true⟩, .cancelled k⟩ := by
    rw [streamingBatchTranslate, hrun]
    congr 1
    · simp
    · simp
    · simp
  refine ⟨hrun0, ?_, ?_, ?_⟩
  · intro u hu
    rw [hrun0] at hu
    simp only [List.mem_map, List.mem_range] at hu
    rcases hu with ⟨j, hj, rfl⟩
    exact hj
  · intro j hj
    rw [hrun0] at hj
    simpa using hj
  · intro m
    rw [hrun0]
    simp

/-- Witness for C5: three batches, cancellation observed before batch 1 is
dispatched; only batch 0 is dispatched, the only update is batch 0's
success, and the run ends cancelled. -/
theorem c5_witness :
    streamingBatchTranslate (fun _ => some ["t"]) (fun j => j == 1) [["a"], ["b"], ["c"]] =
      ⟨List.range 1, (List.range 1).map fun j => ⟨j, true⟩, .cancelled 1⟩ :=
  (c5_cancellation_cutoff (fun _ => some ["t"]) (fun j => j == 1) [["a"], ["b"], ["c"]] 1
    (by decide) (by decide) (by decide) (by decide)).1

theorem expand_emptyLine_placeholder (texts : List String) (p : String × SegMapping)
    (hmem : p ∈ expandTextsForTranslation texts) (he : p.2.isEmptyLine = true) :
    p.1 = "[[EMPTY_LINE]]" := by
  unfold expandTextsForTranslation at hmem
  rw [List.mem_flatMap] at hmem
  obtain ⟨q, _, hp⟩ := hmem
  by_cases hc : q.2.data.contains '\n'
  · simp only [hc, if_true] at hp
    rw [List.mem_map] at hp
    obtain ⟨line, _, hline⟩ := hp
    by_cases hb : (jsTrim line).isEmpty
    · simp only [hb, if_true] at hline
      rw [← hline]
    · simp only [hb, if_false] at hline
      rw [← hline] at he
      simp at he
  · rw [Bool.not_eq_true] at hc
    simp only [hc, Bool.false_eq_true, if_false, List.mem_singleton] at hp
    subst hp
    simp at he

/-- C6 is false as stated: the translation payload for the unit
`"Hello\n\nWorld"` contains the empty string, because
`processSelectedElement` maps the internal blank line's `[[EMPTY_LINE]]`
placeholder to `""` and keeps it in the `{ text }` list sent for
translation. -/
theorem c6_counterexample : "" ∈ jsonPayloadTexts ["Hello\n\nWorld"] := by
  decide

/-- C6 as amended: every empty-line segment is carried as a `[[EMPTY_LINE]]`
placeholder recorded in the origin map, but the payload built for the
backend represents it as an empty-string `{ text }` entry at the same
position (the backend receives an empty entry for it, not nothing). -/
theorem c6_empty_line_payload_amended (texts : List String) (i : Nat) (m : SegMapping)
    (hm : (originMappingOf texts)[i]? = some m) (he : m.isEmptyLine = true) :
    (jsonPayloadTexts texts)[i]? = some "" := by
  unfold originMappingOf at hm
  rw [List.getElem?_map] at hm
  cases hL : (expandTextsForTranslation texts)[i]? with
  | none =>
    rw [hL] at hm
    simp at hm
  | some p =>
    rw [hL] at hm
    have hp2 : p.2 = m := by simpa using hm
    have hmem : p ∈ expandTextsForTranslation texts := List.getElem?_mem hL
    have hph := expand_emptyLine_placeholder texts p hmem (by rw [hp2]; exact he)
    unfold jsonPayloadTexts expandedTextsOf
    rw [List.getElem?_map, List.getElem?_map, hL]
    simp [hph]

/-- Witness for C6 as amended: in `["Hello\n\nWorld"]` segment 1 is the
empty-line segment and the payload carries `""` at position 1. -/
theorem c6_witness : (jsonPayloadTexts ["Hello\n\nWorld"])[1]? = some "" :=
  c6_empty_line_payload_amended ["Hello\n\nWorld"] 1 ⟨0, true⟩ (by decide) rfl

theorem padGo_spec (originalBatch : List String) :
    ∀ (k : Nat) (ts : List String),
      padGo originalBatch ts k
        = ts ++ (List.range k).map fun j => originalBatch.getD (ts.length + j) "" := by
  intro k
  induction k with
  | zero =>
    intro ts
    simp [padGo]
  | succ k ih =>
    intro ts
    simp only [padGo]
    rw [ih, List.range_succ_eq_map]
    simp only [List.map_cons, List.map_map, List.length_append, List.length_cons,
      List.length_nil, Nat.add_zero, List.append_assoc, List.singleton_append]
    congr 1
    congr 1
    apply List.map_congr_left
    intro j _
    simp only [Function.comp_apply]
    congr 1
    omega

/-- C8: whenever the backend response parses to a structured `{id, text}`
list whose item count differs from the batch size, positional recovery
returns a list whose length equals the batch size: entries are ordered by
the provided id (a stable sort, as JS `sort` with comparator `a.id - b.id`),
extra entries are discarded (only the first `expectedCount` are kept), and
missing tail entries are filled with the original batch text at the same
position. -/
theorem c8_positional_recovery (parsed : List BatchObjItem) (expectedCount : Nat)
    (originalBatch : List String)
    (hne : parsed ≠ [])
    (hmismatch : parsed.length ≠ expectedCount) :
    ∃ r, parseBatchResult parsed expectedCount originalBatch = some r
      ∧ r.length = expectedCount
      ∧ (expectedCount < parsed.length →
          r = (sortById (parsed.take expectedCount)).map BatchObjItem.text)
      ∧ (parsed.length < expectedCount →
          r.take parsed.length = (sortById parsed).map BatchObjItem.text
          ∧ ∀ p, parsed.length ≤ p → p < expectedCount →
              r[p]? = some (originalBatch.getD p ""))
      ∧ List.Sorted idLe (sortById parsed)
      ∧ List.Sorted idLe (sortById (parsed.take expectedCount)) := by
  unfold parseBatchResult
  rw [if_neg (by simpa [List.isEmpty_iff] using hne), if_neg hmismatch]
  by_cases hgt : expectedCount < parsed.length
  · rw [if_pos hgt]
    refine ⟨_, rfl, ?_, fun _ => rfl, fun h => absurd h (by omega), ?_, ?_⟩
    · simp only [List.length_map, sortById, List.length_insertionSort, List.length_take]
      omega
    · exact List.sorted_insertionSort idLe parsed
    · exact List.sorted_insertionSort idLe (parsed.take expectedCount)
  · have hlt : parsed.length < expectedCount := by omega
    rw [if_neg hgt]
    have hlen : ((sortById parsed).map BatchObjItem.text).length = parsed.length := by
      simp [sortById, List.length_insertionSort]
    refine ⟨_, rfl, ?_, fun h => absurd h (by omega), fun _ => ⟨?_, ?_⟩, ?_, ?_⟩
    · unfold padWithOriginals
      rw [padGo_spec]
      simp only [List.length_append, List.length_map, List.length_range, hlen]
      omega
    · unfold padWithOriginals
      rw [padGo_spec, ← hlen]
      exact List.take_left _ _
    · intro p hp1 hp2
      unfold padWithOriginals
      rw [padGo_spec, List.getElem?_append_right (by omega : ((sortById parsed).map BatchObjItem.text).length ≤ p)]
      rw [List.getElem?_map, List.getElem?_range (by rw [hlen]; omega)]
      simp only [Option.map_some']
      rw [hlen]
      congr 2
      omega
    · exact List.sorted_insertionSort idLe parsed
    · exact List.sorted_insertionSort idLe (parsed.take expectedCount)

/-- Witness for C8: a two-item structured response for a three-segment
batch recovers to a three-entry result. -/
theorem c8_witness :
    ∃ r, parseBatchResult [⟨2, "C"⟩, ⟨0, "A"⟩] 3 ["x", "y", "z"] = some r
      ∧ r.length = 3 :=
  have h := c8_positional_recovery [⟨2, "C"⟩, ⟨0, "A"⟩] 3 ["x", "y", "z"]
    (by decide) (by decide)
  ⟨h.choose, h.choose_spec.1, h.choose_spec.2.1⟩

theorem countRunsGo_not_head (p : Char → Bool) (b : Bool) (c : Char) (rest : List Char)
    (hc : p c = false) : countRunsGo p b (c :: rest) = countRunsGo p false rest := by
  simp [countRunsGo, hc]

theorem head_dropWhile_not (p : Char → Bool) :
    ∀ (l : List Char) (c : Char), (l.dropWhile p).head? = some c → p c = false := by
  intro l
  induction l with
  | nil =>
    intro c h
    simp [List.dropWhile] at h
  | cons a t ih =>
    intro c h
    rw [List.dropWhile_cons] at h
    by_cases hp : p a
    · rw [if_pos hp] at h
      exact ih c h
    · rw [if_neg hp] at h
      simp only [List.head?_cons, Option.some.injEq] at h
      rw [← h]
      simpa using hp

theorem getLast_dropWhile (p : Char → Bool) :
    ∀ l : List Char, l.dropWhile p ≠ [] → (l.dropWhile p).getLast? = l.getLast? := by
  intro l
  induction l with
  | nil =>
    intro h
    simp [List.dropWhile] at h
  | cons a t ih =>
    intro h
    rw [List.dropWhile_cons]
    by_cases hp : p a
    · rw [List.dropWhile_cons, if_pos hp] at h
      rw [if_pos hp, ih h]
      have ht : t ≠ [] := by
        intro he
        rw [he] at h
        simp [List.dropWhile] at h
      cases t with
      | nil => exact absurd rfl ht
      | cons b t2 => rw [List.getLast?_cons_cons]
    · rw [if_neg hp]

theorem runsGo_rel (p : Char → Bool) :
    ∀ cs : List Char, (∀ c, cs.getLast? = some c → p c = false) →
      countRunsGo p false cs = countRunsGo (fun c => !p c) true cs
      ∧ (cs ≠ [] →
          countRunsGo (fun c => !p c) false cs = countRunsGo p true cs + 1) := by
  intro cs
  induction cs with
  | nil =>
    intro _
    exact ⟨rfl, fun h => absurd rfl h⟩
  | cons c rest ih =>
    intro hlast
    have hrest : ∀ d, rest.getLast? = some d → p d = false := by
      intro d hd
      apply hlast
      cases rest with
      | nil => simp at hd
      | cons b t => rw [List.getLast?_cons_cons]; exact hd
    have ihx := ih hrest
    by_cases hp : p c
    · have hrne : rest ≠ [] := by
        intro he
        subst he
        have := hlast c (by simp)
        rw [this] at hp
        exact Bool.noConfusion hp
      have hrec := ihx.2 hrne
      constructor
      · simp [countRunsGo, hp]
        omega
      · intro _
        simp [countRunsGo, hp]
        omega
    · have hpf : p c = false := by simpa using hp
      have hrec := ihx.1
      constructor
      · simp [countRunsGo, hpf]
        omega
      · intro _
        simp [countRunsGo, hpf]
        omega

theorem jsTrim_head_not_ws (t : String) (c : Char) :
    (jsTrim t).data.head? = some c → isJsWhitespace c = false := by
  intro h
  unfold jsTrim at h
  simp only [String.data] at h
  rw [List.head?_reverse] at h
  have hne : (t.data.dropWhile isJsWhitespace).reverse.dropWhile isJsWhitespace ≠ [] := by
    intro he
    rw [he] at h
    simp at h
  rw [getLast_dropWhile isJsWhitespace _ hne, List.getLast?_reverse] at h
  exact head_dropWhile_not isJsWhitespace _ c h

theorem jsTrim_getLast_not_ws (t : String) (c : Char) :
    (jsTrim t).data.getLast? = some c → isJsWhitespace c = false := by
  intro h
  unfold jsTrim at h
  simp only [String.data] at h
  rw [List.getLast?_reverse] at h
  exact head_dropWhile_not isJsWhitespace _ c h

theorem wordCountJs_jsTrim (t : String) :
    wordCountJs (jsTrim t) = Nat.max 1 (specWordCount (jsTrim t)) := by
  unfold wordCountJs specWordCount countRuns
  cases hcs : (jsTrim t).data with
  | nil => simp [countRunsGo]
  | cons c rest =>
    have hc : isJsWhitespace c = false := by
      apply jsTrim_head_not_ws t
      rw [hcs]
      rfl
    have hlast : ∀ d, (c :: rest).getLast? = some d → isJsWhitespace d = false := by
      intro d hd
      apply jsTrim_getLast_not_ws t
      rw [hcs]
      exact hd
    have hrel := (runsGo_rel isJsWhitespace (c :: rest) hlast).2 (by simp)
    have hsame : countRunsGo isJsWhitespace true (c :: rest)
        = countRunsGo isJsWhitespace false (c :: rest) := by
      rw [countRunsGo_not_head isJsWhitespace true c rest hc,
        countRunsGo_not_head isJsWhitespace false c rest hc]
    rw [hrel, hsame]
    exact (Nat.max_eq_right (by omega)).symm

/-- C9 is false as stated: for the two-space string, the trimmed string is
empty so the claim's word count is 0 and its formula gives
`round(min(2*0.5,100)) = 1`, but the code's `"".split(/\s+/).length` is 1,
giving `round(1 + 0.5) = 2`. -/
theorem c9_counterexample :
    specComplexityFormula (some "  ") = 1
    ∧ calculateTextComplexity (some "  ") = 2 := by
  constructor
  · decide
  · decide

/-- C9 as amended: the complexity equals
`round(min(length*0.5, 100) + sentenceCount*2 + min(wordCount*0.5, 20))`
where `sentenceCount` is the number of maximal runs of '.', '!' and '?', and
`wordCount` is the number of whitespace-separated words of the trimmed
string counted as 1 when the trimmed string is empty; a null or non-string
(or empty, hence falsy) input has complexity 0. -/
theorem c9_complexity_formula_amended (text : Option String) :
    calculateTextComplexity text = amendedComplexityFormula text := by
  cases text with
  | none => rfl
  | some t =>
    unfold calculateTextComplexity amendedComplexityFormula
    by_cases he : t.isEmpty
    · simp [he]
    · simp only [he, Bool.false_eq_true, if_false]
      rw [wordCountJs_jsTrim t]

/-- C10: a streamed per-segment translation is applied to destination nodes
only when the minimum-content check passes.  Whenever the gate admits a
segment, the trimmed translation is strictly longer than 10% of the trimmed
original unit text it translates (first conjunct); and whenever the check
fails for the matched segment, the gate rejects it, so the destination text
stays unchanged until a later update or the final result (second
conjunct). -/
theorem c10_min_content_gate (expandedTexts : List String) (originMapping : List SegMapping)
    (textsToTranslate : List String) (originalText translatedText : String) :
    (streamSegmentApplied expandedTexts originMapping textsToTranslate
        originalText translatedText = true →
      ∃ expandedIndex mappingInfo originalTextKey,
        expandedTexts.findIdx? (fun text => text == originalText) = some expandedIndex
        ∧ originMapping[expandedIndex]? = some mappingInfo
        ∧ mappingInfo.isEmptyLine = false
        ∧ textsToTranslate[mappingInfo.originalIndex]? = some originalTextKey
        ∧ originalTextKey ≠ ""
        ∧ (jsTrim originalTextKey).length < 10 * (jsTrim translatedText).length)
    ∧ (∀ expandedIndex mappingInfo originalTextKey,
        expandedTexts.findIdx? (fun text => text == originalText) = some expandedIndex →
        originMapping[expandedIndex]? = some mappingInfo →
        textsToTranslate[mappingInfo.originalIndex]? = some originalTextKey →
        10 * (jsTrim translatedText).length ≤ (jsTrim originalTextKey).length →
        streamSegmentApplied expandedTexts originMapping textsToTranslate
          originalText translatedText = false) := by
  constructor
  · intro happ
    unfold streamSegmentApplied at happ
    cases hidx : expandedTexts.findIdx? (fun text => text == originalText) with
    | none =>
      rw [hidx] at happ
      exact Bool.noConfusion happ
    | some expandedIndex =>
      rw [hidx] at happ
      dsimp only at happ
      cases hmap : originMapping[expandedIndex]? with
      | none =>
        rw [hmap] at happ
        exact Bool.noConfusion happ
      | some mappingInfo =>
        rw [hmap] at happ
        dsimp only at happ
        by_cases hel : mappingInfo.isEmptyLine
        · rw [if_pos hel] at happ
          exact Bool.noConfusion happ
        · rw [if_neg hel] at happ
          cases hkey : textsToTranslate[mappingInfo.originalIndex]? with
          | none =>
            rw [hkey] at happ
            exact Bool.noConfusion happ
          | some originalTextKey =>
            rw [hkey] at happ
            dsimp only at happ
            by_cases hemp : originalTextKey = ""
            · rw [if_pos hemp] at happ
              exact Bool.noConfusion happ
            · rw [if_neg hemp] at happ
              refine ⟨expandedIndex, mappingInfo, originalTextKey, rfl, hmap, ?_, hkey, hemp, ?_⟩
              · simpa using hel
              · exact of_decide_eq_true happ
  · intro expandedIndex mappingInfo originalTextKey hidx hmap hkey hle
    unfold streamSegmentApplied
    rw [hidx]
    dsimp only
    rw [hmap]
    dsimp only
    by_cases hel : mappingInfo.isEmptyLine
    · rw [if_pos hel]
    · rw [if_neg hel, hkey]
      dsimp only
      by_cases hemp : originalTextKey = ""
      · rw [if_pos hemp]
      · rw [if_neg hemp]
        simpa using hle

/-- Witness for C10: the one-character translation "x" of the 13-character
unit "HelloWorldABC" fails the 10% minimum-content check and is not
applied. -/
theorem c10_witness :
    streamSegmentApplied ["HelloWorldABC"] [⟨0, false⟩] ["HelloWorldABC"]
      "HelloWorldABC" "x" = false :=
  (c10_min_content_gate ["HelloWorldABC"] [⟨0, false⟩] ["HelloWorldABC"]
      "HelloWorldABC" "x").2
    0 ⟨0, false⟩ "HelloWorldABC" (by decide) (by decide) (by decide) (by decide)
